import Mathlib

/-!
Shallow embedding of the MPFS2 image decoder (mpfs2.py).

Bytes are `Nat`, byte buffers are `List Nat`, Python slices clamp at the
end of the buffer, and the Python exceptions the decoder can raise
(IndexError from indexing a bytes object out of range, struct.error from
struct.unpack on a buffer of the wrong size) are explicit error values.
-/

/-- Python exceptions the decoder can raise. -/
inductive PyErr where
  | indexError
  | structError
deriving DecidableEq, Repr

/-- Little-endian 16-bit value from two bytes. -/
def le16 (a b : Nat) : Nat := a + 256 * b

/-- Little-endian 32-bit value from four bytes. -/
def le32 (a b c d : Nat) : Nat := a + 256 * b + 65536 * c + 16777216 * d

/-- Python slice fs[i:j]: clamps at the end of the buffer, empty when j ≤ i. -/
def sliceClamp (fs : List Nat) (i j : Nat) : List Nat := (fs.drop i).take (j - i)

/-- Flag bit 0: the file is compressed with GZIP compression. -/
def MPFS2_FLAG_ISZIPPED : Nat := 1

/-- Flag bit 1: the file has an associated index of dynamic variables. -/
def MPFS2_FLAG_HASINDEX : Nat := 2

/-- The 22-byte file record of the MPFS2 format (mpfs2.py FileRecord). -/
structure FileRecord where
  StringPtr : Nat
  DataPtr : Nat
  Len : Nat
  Timestamp : Nat
  Microtime : Nat
  Flags : Nat
deriving DecidableEq, Repr

/-- Rendering of one name byte in get_string: bytes below 32 become an
escaped placeholder, other bytes the character itself. -/
def renderByte (i : Nat) : String :=
  if i < 32 then "<" ++ toString i ++ ">" else String.singleton (Char.ofNat i)

/-- Loop of get_string over fs[ptr:]: consume bytes up to a 0 terminator
or, when no 0 byte occurs, up to the end of the buffer. -/
def getStringLoop : List Nat → String
  | [] => ""
  | i :: rest => if i = 0 then "" else renderByte i ++ getStringLoop rest

/-- One uppercase hexadecimal digit. -/
def hexChar (n : Nat) : Char :=
  (['0', '1', '2', '3', '4', '5', '6', '7', '8', '9',
    'A', 'B', 'C', 'D', 'E', 'F']).getD (n % 16) '0'

/-- Python format "06X" for values below 16^6 (the decoder only formats
offsets into the image with it). -/
def hex6 (n : Nat) : String :=
  String.mk [hexChar (n / 1048576), hexChar (n / 65536), hexChar (n / 4096),
    hexChar (n / 256), hexChar (n / 16), hexChar n]

/-- get_string from mpfs2.py: fs[ptr] raises IndexError out of bounds; a
first byte of 0 yields the sentinel label (or the hexadecimal offset in
hex_name mode); otherwise bytes are decoded from ptr until a 0 terminator
or the end of the buffer. -/
def get_string (fs : List Nat) (ptr : Nat) ( hex_name : Bool) : Except PyErr String :=
  match fs.get? ptr with
  | none => .error .indexError
  | some b =>
    if b = 0 then
      if hex_name then .ok (hex6 ptr) else .ok "<no name>"
    else .ok (getStringLoop (fs.drop ptr))

/-- Loop of get_var over fs[ptr+1:]: consume bytes up to a closing tilde
(byte 126) or the end of the buffer. -/
def getVarLoop : List Nat → String
  | [] => ""
  | i :: rest => if i = 126 then "" else String.singleton (Char.ofNat i) ++ getVarLoop rest

/-- get_var from mpfs2.py: 126 is the ASCII tilde delimiter of a dynamic
variable name. -/
def get_var (fs : List Nat) (ptr : Nat) : Except PyErr String :=
  match fs.get? ptr with
  | none => .error .indexError
  | some b =>
    if b ≠ 126 then .ok "<no var>"
    else .ok (getVarLoop (fs.drop (ptr + 1)))

/-- struct.unpack with format "II" as used on fs[i:i+8] in find_variables:
two little-endian 32-bit values; the buffer must be exactly 8 bytes, else
struct.error. -/
def unpack2u32 : List Nat → Except PyErr (Nat × Nat)
  | [a, b, c, d, e, f, g, h] => .ok (le32 a b c d, le32 e f g h)
  | _ => .error .structError

/-- struct.unpack with format "<H": one little-endian 16-bit value from an
exactly 2-byte buffer. -/
def unpackU16 : List Nat → Except PyErr Nat
  | [a, b] => .ok (le16 a b)
  | _ => .error .structError

/-- struct.unpack with format "<IIIIIH": a 22-byte file record, all fields
little-endian, in the order StringPtr, DataPtr, Len, Timestamp, Microtime,
Flags. -/
def unpackRecord : List Nat → Except PyErr FileRecord
  | [a0, a1, a2, a3, a4, a5, a6, a7, a8, a9, a10, a11,
     a12, a13, a14, a15, a16, a17, a18, a19, a20, a21] =>
    .ok ⟨le32 a0 a1 a2 a3, le32 a4 a5 a6 a7, le32 a8 a9 a10 a11,
      le32 a12 a13 a14 a15, le32 a16 a17 a18 a19, le16 a20 a21⟩
  | _ => .error .structError

/-- The variables dict of find_variables: insertion-ordered association
list from variable id to name, each id present at most once. -/
abbrev VarMap := List (Nat × String)

/-- The pair starts range(v.DataPtr, v.DataPtr + v.Len, 8) that
find_variables walks over a companion record v. -/
def pairStarts (v : FileRecord) : List Nat :=
  List.range' v.DataPtr ((v.Len + 7) / 8) 8

/-- Byte positions covered by the slices fs[i:i+8] that find_variables
unpacks, one slice per pair start of the companion v. -/
def pairReadPositions (v : FileRecord) : List Nat :=
  (pairStarts v).flatMap (fun i => List.range' i 8)

/-- Outcome of the inner pair loop of find_variables: normal completion,
StopIteration raised on an inconsistent variable (carrying the dict built
so far), or a propagating Python exception. -/
inductive PairsOut where
  | ok (m : VarMap)
  | stop (m : VarMap)
  | err (e : PyErr)
deriving DecidableEq, Repr

/-- Inner loop of find_variables over one companion record: for each pair
start, unpack (offset, num_var) from fs[i:i+8], resolve the variable name
at r.DataPtr + offset, and record it; a second occurrence of an id with a
different name prints a warning and raises StopIteration. -/
def procPairs (fs : List Nat) (rDataPtr : Nat) : List Nat → VarMap → PairsOut
  | [], m => .ok m
  | i :: rest, m =>
    match unpack2u32 (sliceClamp fs i (i + 8)) with
    | .error e => .err e
    | .ok (offset, num_var) =>
      match get_var fs (rDataPtr + offset) with
      | .error e => .err e
      | .ok var_name =>
        match m.lookup num_var with
        | none => procPairs fs rDataPtr rest (m ++ [(num_var, var_name)])
        | some old => if old = var_name then procPairs fs rDataPtr rest m else .stop m

/-- Outer loop of find_variables: a record without the has-index flag is
skipped; one with it consumes the following record as companion. The
StopIteration raised when the iterator is exhausted (has-index record
last) or by an inconsistent variable is caught by the surrounding
try/except, which returns the dict built so far; IndexError and
struct.error propagate. -/
def findVarsAux (fs : List Nat) : List FileRecord → VarMap → Except PyErr VarMap
  | [], m => .ok m
  | r :: rest, m =>
    if r.Flags &&& MPFS2_FLAG_HASINDEX ≠ MPFS2_FLAG_HASINDEX then findVarsAux fs rest m
    else
      match rest with
      | [] => .ok m
      | v :: rest2 =>
        match procPairs fs r.DataPtr (pairStarts v) m with
        | .ok m2 => findVarsAux fs rest2 m2
        | .stop m2 => .ok m2
        | .err e => .error e

/-- find_variables from mpfs2.py. -/
def find_variables (fs : List Nat) (record : List FileRecord) : Except PyErr VarMap :=
  findVarsAux fs record []

/-- Payload extraction step of main (mpfs2.py lines 213-222). gunzip
stands for gzip.decompress, an external routine. The source tests
r.Flags == 1, a whole-field comparison, not the ISZIPPED bit alone. -/
def extract (gunzip : List Nat → List Nat) (fs : List Nat) (r : FileRecord) : List Nat :=
  if r.Flags = 1 then gunzip (sliceClamp fs r.DataPtr (r.DataPtr + r.Len))
  else sliceClamp fs r.DataPtr (r.DataPtr + r.Len)

/-- Result of the header and table parsing in main: version bytes, file
count, name hashes, file records, and the offset reached after the last
record read. -/
structure Decoded where
  ver_hi : Nat
  ver_lo : Nat
  n : Nat
  name_hash : List Nat
  record : List FileRecord
  offset : Nat
deriving DecidableEq, Repr

/-- Outcome of the header and table parsing: the bad-signature early
return (exit code 2), success, or a propagating Python exception. -/
inductive DecodeResult where
  | badSignature
  | ok (d : Decoded)
  | err (e : PyErr)
deriving DecidableEq, Repr

/-- The ASCII bytes of the signature "MPFS". -/
def MPFS_SIG : List Nat := [77, 80, 70, 83]

/-- The name-hash reading loop of main: n little-endian 16-bit values,
advancing the offset by 2 each. -/
def readHashes (fs : List Nat) : Nat → Nat → Except PyErr (List Nat × Nat)
  | 0, off => .ok ([], off)
  | k + 1, off =>
    match unpackU16 (sliceClamp fs off (off + 2)) with
    | .error e => .error e
    | .ok h =>
      match readHashes fs k (off + 2) with
      | .error e => .error e
      | .ok (hs, off2) => .ok (h :: hs, off2)

/-- The record reading loop of main: n 22-byte records, advancing the
offset by 22 each. -/
def readRecords (fs : List Nat) : Nat → Nat → Except PyErr (List FileRecord × Nat)
  | 0, off => .ok ([], off)
  | k + 1, off =>
    match unpackRecord (sliceClamp fs off (off + 22)) with
    | .error e => .error e
    | .ok r =>
      match readRecords fs k (off + 22) with
      | .error e => .error e
      | .ok (rs, off2) => .ok (r :: rs, off2)

/-- Header and table parsing of main (mpfs2.py lines 132-153): compare
fs[0:4] with the signature, read the version bytes fs[4] and fs[5], the
little-endian u16 file count at offset 6, then n hashes from offset 8 and
n 22-byte records after them. -/
def decode (fs : List Nat) : DecodeResult :=
  if sliceClamp fs 0 4 ≠ MPFS_SIG then .badSignature
  else
    match fs.get? 4 with
    | none => .err .indexError
    | some vh =>
      match fs.get? 5 with
      | none => .err .indexError
      | some vl =>
        match unpackU16 (sliceClamp fs 6 8) with
        | .error e => .err e
        | .ok n =>
          match readHashes fs n 8 with
          | .error e => .err e
          | .ok (hs, off1) =>
            match readRecords fs n off1 with
            | .error e => .err e
            | .ok (rs, off2) => .ok ⟨vh, vl, n, hs, rs, off2⟩

/-- How the per-record loop of main ends: the whole list processed (with
the final index and next_is_indexfile state), a break on a nameless
record outside an index pair, a break on a named record where an index
companion was expected, or a propagating Python exception. -/
inductive LoopEnd where
  | done (i : Nat) (nif : Option String)
  | badName (i : Nat)
  | badIndex (i : Nat)
  | pyErr (e : PyErr)
deriving DecidableEq, Repr

/-- Per-record processing loop of main (mpfs2.py lines 169-230), reduced
to what it computes per record: the filename of each processed record in
order, and how the loop ends. next_is_indexfile (nif) carries the name of
the preceding record when that record had the has-index flag. -/
def procLoop (fs : List Nat) : List FileRecord → Nat → Option String → List (Nat × String) × LoopEnd
  | [], i, nif => ([], .done i nif)
  | r :: rest, i, nif =>
    match fs.get? r.StringPtr with
    | none => ([], .pyErr .indexError)
    | some b =>
      match nif with
      | none =>
        if b = 0 then ([], .badName i)
        else
          match get_string fs r.StringPtr false with
          | .error e => ([], .pyErr e)
          | .ok filename =>
            let nif2 := if r.Flags &&& MPFS2_FLAG_HASINDEX = MPFS2_FLAG_HASINDEX
              then some filename else none
            let out := procLoop fs rest (i + 1) nif2
            ((i, filename) :: out.1, out.2)
      | some prev =>
        if b ≠ 0 then ([], .badIndex i)
        else
          let filename := prev ++ "-index"
          let nif2 := if r.Flags &&& MPFS2_FLAG_HASINDEX = MPFS2_FLAG_HASINDEX
            then some filename else none
          let out := procLoop fs rest (i + 1) nif2
          ((i, filename) :: out.1, out.2)

/-- Rendering of a byte run with no terminator check; getStringLoop
agrees with it on the bytes before the first 0. -/
def renderBytes : List Nat → String
  | [] => ""
  | i :: rest => renderByte i ++ renderBytes rest

/-! Helper lemmas shared by several results. -/

theorem getStringLoop_eq (l : List Nat) :
    getStringLoop l = renderBytes (l.takeWhile (fun x => x != 0)) := by
  induction l with
  | nil => rfl
  | cons i rest ih =>
    by_cases h : i = 0
    · simp [getStringLoop, renderBytes, List.takeWhile_cons, h]
    · simp [getStringLoop, renderBytes, List.takeWhile_cons, h, ih]

theorem takeWhile_ne_zero_eq_self (l : List Nat) (h : ∀ x ∈ l, x ≠ 0) :
    l.takeWhile (fun x => x != 0) = l := by
  induction l with
  | nil => rfl
  | cons i rest ih =>
    have hi : i ≠ 0 := h i (by simp)
    simp only [List.takeWhile_cons, bne_iff_ne, ne_eq, hi, not_false_eq_true, if_true,
      decide_not]
    simp [hi, ih fun x hx => h x (by simp [hx])]

/-- C1: the claim says extraction dispatches on the ISZIPPED bit alone, any
other flag bits notwithstanding. The code tests r.Flags == 1, so a record
with Flags = 3 (ISZIPPED and HASINDEX both set) is returned raw even
though a decompressor that changes the bytes is supplied. -/
theorem c1_counterexample :
    (⟨0, 0, 2, 0, 0, 3⟩ : FileRecord).Flags &&& MPFS2_FLAG_ISZIPPED = MPFS2_FLAG_ISZIPPED ∧
    extract (fun _ => [99]) [1, 2, 3] ⟨0, 0, 2, 0, 0, 3⟩ = [1, 2] ∧
    (fun _ => [99]) (sliceClamp [1, 2, 3] 0 (0 + 2)) = [99] := by
  exact ⟨by decide, by decide, rfl⟩

/-- C1 amended: extraction with the ISZIPPED bit unset returns the raw
slice Image[dataPtr:dataPtr+len] whatever the other flag bits; extraction
with Flags exactly equal to 1 (ISZIPPED set and nothing else) returns the
gzip-decompressed slice; extraction with ISZIPPED set together with any
other flag bit returns the raw slice, not the decompressed one. -/
theorem c1_flags_dispatch (gunzip : List Nat → List Nat) (fs : List Nat) (r : FileRecord) :
    (r.Flags &&& MPFS2_FLAG_ISZIPPED = 0 →
      extract gunzip fs r = sliceClamp fs r.DataPtr (r.DataPtr + r.Len)) ∧
    (r.Flags = 1 →
      extract gunzip fs r = gunzip (sliceClamp fs r.DataPtr (r.DataPtr + r.Len))) ∧
    (r.Flags &&& MPFS2_FLAG_ISZIPPED = MPFS2_FLAG_ISZIPPED → r.Flags ≠ 1 →
      extract gunzip fs r = sliceClamp fs r.DataPtr (r.DataPtr + r.Len)) := by
  refine ⟨fun h => ?_, fun h => ?_, fun _ h2 => ?_⟩
  · have hne : r.Flags ≠ 1 := by
      intro he
      rw [he] at h
      exact absurd h (by decide)
    simp [extract, hne]
  · simp [extract, h]
  · simp [extract, h2]

/-- C1 amended, witness at Flags = 3: the record is returned raw. -/
theorem c1_flags_dispatch_witness :
    extract (fun _ => [99]) [1, 2, 3] ⟨0, 0, 2, 0, 0, 3⟩ = sliceClamp [1, 2, 3] 0 (0 + 2) :=
  (c1_flags_dispatch (fun _ => [99]) [1, 2, 3] ⟨0, 0, 2, 0, 0, 3⟩).2.2 (by decide) (by decide)

/-- C2: the claim says a has-index record in last position makes the
decode fail with a DanglingIndex error. In the code the StopIteration
raised by the exhausted iterator is caught and find_variables returns
normally: on a one-record sequence whose record has the has-index flag it
silently returns the empty dict. -/
theorem c2_counterexample :
    find_variables [] [⟨0, 0, 0, 0, 0, 2⟩] = Except.ok ([] : VarMap) := by
  rfl

/-- C2 amended: when iteration reaches a has-index record that is the last
record of the sequence, variable resolution ends silently and returns the
variables collected so far; no error is raised. -/
theorem c2_trailing_index_silent (fs : List Nat) (m : VarMap) (r : FileRecord)
    (h : r.Flags &&& MPFS2_FLAG_HASINDEX = MPFS2_FLAG_HASINDEX) :
    findVarsAux fs [r] m = .ok m := by
  simp [findVarsAux, h]

/-- C2 amended, witness on a concrete trailing has-index record. -/
theorem c2_trailing_index_silent_witness :
    findVarsAux [] [⟨0, 0, 0, 0, 0, 2⟩] [(7, "v")] = .ok [(7, "v")] :=
  c2_trailing_index_silent [] [(7, "v")] ⟨0, 0, 0, 0, 0, 2⟩ (by decide)

/-- C3: the claim says name resolution fails with a Truncated condition
when no 0 terminator precedes the end of the Image. On the one-byte image
[65] with ptr 0 there is no 0 byte anywhere, yet get_string succeeds and
returns the name "A". -/
theorem c3_counterexample :
    get_string [65] 0 false = Except.ok "A" ∧ (∀ x ∈ ([65] : List Nat), x ≠ 0) := by
  exact ⟨rfl, by decide⟩

/-- C3 amended: for a pointer whose first byte is non-zero, name
resolution decodes (and escapes) the bytes from ptr up to the first 0
terminator; when no 0 byte occurs between ptr and the end of the Image it
returns the name decoded from all bytes from ptr to the end, rather than
failing. -/
theorem c3_name_scan (fs : List Nat) (ptr : Nat) (b : Nat)
    (hb : fs.get? ptr = some b) (hnz : b ≠ 0) :
    get_string fs ptr false =
      .ok (renderBytes ((fs.drop ptr).takeWhile (fun x => x != 0))) ∧
    ((∀ x ∈ fs.drop ptr, x ≠ 0) →
      get_string fs ptr false = .ok (renderBytes (fs.drop ptr))) := by
  have hmain : get_string fs ptr false = .ok (getStringLoop (fs.drop ptr)) := by
    unfold get_string
    rw [hb]
    simp [hnz]
  constructor
  · rw [hmain, getStringLoop_eq]
  · intro hall
    rw [hmain, getStringLoop_eq, takeWhile_ne_zero_eq_self _ hall]

/-- C3 amended, witness: a name with no terminator before the end of the
image is decoded whole. -/
theorem c3_name_scan_witness :
    get_string [66, 67] 0 false = .ok (renderBytes ([66, 67] : List Nat)) :=
  (c3_name_scan [66, 67] 0 66 rfl (by decide)).2 (by decide)

/-- C5: the claim says reading a companion's 8-byte pairs never touches a
position at or past v.DataPtr + v.Len, even when v.Len is not a multiple
of 8. With DataPtr = 0 and Len = 4 the single pair read covers positions
0 through 7, and 7 is not below 4. -/
theorem c5_counterexample :
    7 ∈ pairReadPositions ⟨0, 0, 4, 0, 0, 2⟩ ∧
    ¬(7 < (0 : Nat) + 4) := by
  exact ⟨by decide, by decide⟩

/-- C5 amended: every position read while unpacking a companion's pairs is
strictly below v.DataPtr + 8 * ceil(v.Len / 8); in particular, when v.Len
is a multiple of 8 no position at or past v.DataPtr + v.Len is ever
read. -/
theorem c5_read_bound (v : FileRecord) (p : Nat) (hp : p ∈ pairReadPositions v) :
    p < v.DataPtr + 8 * ((v.Len + 7) / 8) ∧
    (v.Len % 8 = 0 → p < v.DataPtr + v.Len) := by
  rcases List.mem_flatMap.1 hp with ⟨i, hi, hpi⟩
  rw [pairStarts, List.mem_range'] at hi
  rcases hi with ⟨j, hj, rfl⟩
  rw [List.mem_range'] at hpi
  rcases hpi with ⟨k, hk, rfl⟩
  constructor
  · omega
  · intro h8
    omega

/-- C5 amended, witness on a companion of length 8. -/
theorem c5_read_bound_witness :
    (0 : Nat) < 0 + 8 * ((8 + 7) / 8) ∧ (8 % 8 = 0 → (0 : Nat) < 0 + 8) :=
  c5_read_bound ⟨0, 0, 8, 0, 0, 2⟩ 0 (by decide)

/-- C8: a buffer whose first four bytes differ from the ASCII signature
MPFS always decodes to the bad-signature failure, and the outcome depends
only on those four bytes: any buffer sharing the same 4-byte prefix
decodes to the same failure, so no byte beyond offset 3 is read. -/
theorem c8_bad_signature (fs : List Nat) (h : fs.take 4 ≠ MPFS_SIG) :
    decode fs = .badSignature ∧
    ∀ fs2 : List Nat, fs2.take 4 = fs.take 4 → decode fs2 = .badSignature := by
  constructor
  · have hs : sliceClamp fs 0 4 = fs.take 4 := by simp [sliceClamp]
    simp [decode, hs, h]
  · intro fs2 h2
    have hs : sliceClamp fs2 0 4 = fs.take 4 := by simp [sliceClamp, h2]
    simp [decode, hs, h]

/-- C8, witness on a concrete non-MPFS buffer. -/
theorem c8_bad_signature_witness :
    decode [0, 1, 2, 3, 4, 5, 6, 7] = .badSignature :=
  (c8_bad_signature [0, 1, 2, 3, 4, 5, 6, 7] (by decide)).1

theorem unpackU16_short : ∀ l : List Nat, l.length ≠ 2 → unpackU16 l = .error .structError
  | [], _ => rfl
  | [_], _ => rfl
  | [_, _], h => absurd rfl h
  | _ :: _ :: _ :: _, _ => rfl

/-- C6: during the pair loop, meeting an id already recorded with a
different name stops the loop at that point (StopIteration), and the
caught exception makes find_variables return exactly the dict built so
far; meeting the id again with the same name does not stop the loop. -/
theorem c6_inconsistent_var (fs : List Nat) (dp i : Nat) (rest : List Nat) (m : VarMap)
    (offset num : Nat) (name : String)
    (h1 : unpack2u32 (sliceClamp fs i (i + 8)) = .ok (offset, num))
    (h2 : get_var fs (dp + offset) = .ok name) :
    (∀ old, m.lookup num = some old → old ≠ name →
      procPairs fs dp (i :: rest) m = .stop m) ∧
    (m.lookup num = some name →
      procPairs fs dp (i :: rest) m = procPairs fs dp rest m) ∧
    (∀ (r v : FileRecord) (rest2 : List FileRecord) (m0 m2 : VarMap),
      r.Flags &&& MPFS2_FLAG_HASINDEX = MPFS2_FLAG_HASINDEX →
      procPairs fs r.DataPtr (pairStarts v) m0 = .stop m2 →
      findVarsAux fs (r :: v :: rest2) m0 = .ok m2) := by
  refine ⟨fun old hold hne => ?_, fun hsame => ?_, fun r v rest2 m0 m2 hf hstop => ?_⟩
  · simp only [procPairs, h1, h2, hold]
    simp [hne]
  · simp only [procPairs, h1, h2, hsame]
    simp
  · simp [findVarsAux, hf, hstop]

/-- C6, witness: the id 5 is already mapped to another name, so the pair
loop stops and keeps the dict it had. -/
theorem c6_inconsistent_var_witness :
    procPairs [8, 0, 0, 0, 5, 0, 0, 0, 126, 120, 126] 0 [0] [(5, "y")] = .stop [(5, "y")] :=
  (c6_inconsistent_var [8, 0, 0, 0, 5, 0, 0, 0, 126, 120, 126] 0 0 [] [(5, "y")] 8 5 "x"
    rfl rfl).1 "y" rfl (by decide)

/-- C10: the record after a has-index record is consumed as companion
unconditionally. The outcome of variable resolution depends only on the
companion's DataPtr and Len, never on its name pointer or its own flags,
and after a successful companion the iteration resumes at the record two
positions later. -/
theorem c10_companion_unchecked (fs : List Nat) (r v v2 : FileRecord) (rest : List FileRecord)
    (m : VarMap) (hr : r.Flags &&& MPFS2_FLAG_HASINDEX = MPFS2_FLAG_HASINDEX)
    (hd : v.DataPtr = v2.DataPtr) (hl : v.Len = v2.Len) :
    findVarsAux fs (r :: v :: rest) m = findVarsAux fs (r :: v2 :: rest) m ∧
    (∀ m2 : VarMap, procPairs fs r.DataPtr (pairStarts v) m = .ok m2 →
      findVarsAux fs (r :: v :: rest) m = findVarsAux fs rest m2) := by
  have hps : pairStarts v = pairStarts v2 := by
    unfold pairStarts
    rw [hd, hl]
  constructor
  · simp only [findVarsAux, hr]
    rw [hps]
    simp [MPFS2_FLAG_HASINDEX]
  · intro m2 hok
    have hr2 : r.Flags &&& 2 = 2 := hr
    simp [findVarsAux, hok, hr2, MPFS2_FLAG_HASINDEX]

/-- C10, witness: changing the companion's flags and string pointer does
not change the result of variable resolution. -/
theorem c10_companion_unchecked_witness :
    findVarsAux [] [⟨0, 0, 0, 0, 0, 2⟩, ⟨9, 0, 0, 0, 0, 3⟩] [] =
      findVarsAux [] [⟨0, 0, 0, 0, 0, 2⟩, ⟨0, 0, 0, 0, 0, 0⟩] [] :=
  (c10_companion_unchecked [] ⟨0, 0, 0, 0, 0, 2⟩ ⟨9, 0, 0, 0, 0, 3⟩ ⟨0, 0, 0, 0, 0, 0⟩ [] []
    (by decide) rfl rfl).1

/-- C4: the claim says buffers shorter than 8 bytes always fail with
Truncated or BadSignature and never raise an unhandled exception. The
4-byte buffer "MPFS" passes the signature check and then the read of the
version byte at offset 4 raises an uncaught IndexError. -/
theorem c4_counterexample :
    decode [77, 80, 70, 83] = .err .indexError ∧
    ([77, 80, 70, 83] : List Nat).take 4 = MPFS_SIG ∧
    ([77, 80, 70, 83] : List Nat).length < 8 := by
  exact ⟨by decide, by decide, by decide⟩

/-- C4 amended: a buffer shorter than 8 bytes whose 4-byte prefix is not
"MPFS" (in particular any buffer shorter than 4 bytes) fails with the
bad-signature return; a buffer of length 4 to 7 that does begin with
"MPFS" raises an unhandled exception instead — IndexError on the version
bytes for lengths 4 and 5, struct.error on the file-count field for
lengths 6 and 7. No read goes out of bounds in either case. -/
theorem c4_short_buffer (fs : List Nat) (h : fs.length < 8) :
    (fs.take 4 ≠ MPFS_SIG → decode fs = .badSignature) ∧
    (fs.take 4 = MPFS_SIG →
      (fs.length ≤ 5 → decode fs = .err .indexError) ∧
      (6 ≤ fs.length → decode fs = .err .structError)) := by
  have hs : sliceClamp fs 0 4 = fs.take 4 := by simp [sliceClamp]
  constructor
  · intro hsig
    simp [decode, hs, hsig]
  · intro hsig
    have h4 : 4 ≤ fs.length := by
      have hlen := congrArg List.length hsig
      simp [List.length_take, MPFS_SIG] at hlen
      omega
    constructor
    · intro h5
      rcases Nat.lt_or_ge fs.length 5 with h45 | h45
      · have hg : fs[4]? = none := List.getElem?_eq_none (by omega)
        simp [decode, hs, hsig, hg]
      · have hg4 : fs[4]? = some fs[4] := List.getElem?_eq_getElem (by omega)
        have hg5 : fs[5]? = none := List.getElem?_eq_none (by omega)
        simp [decode, hs, hsig, hg4, hg5]
    · intro h6
      have hg4 : fs[4]? = some fs[4] := List.getElem?_eq_getElem (by omega)
      have hg5 : fs[5]? = some fs[5] := List.getElem?_eq_getElem (by omega)
      have hsl : (sliceClamp fs 6 8).length ≠ 2 := by
        simp only [sliceClamp, List.length_take, List.length_drop]
        omega
      have hu : unpackU16 (sliceClamp fs 6 8) = .error .structError := unpackU16_short _ hsl
      simp [decode, hs, hsig, hg4, hg5, hu]

/-- C4 amended, witness at the 6-byte buffer "MPFS" plus version bytes. -/
theorem c4_short_buffer_witness :
    decode [77, 80, 70, 83, 2, 1] = .err .structError :=
  ((c4_short_buffer [77, 80, 70, 83, 2, 1] (by decide)).2 (by decide)).2 (by decide)

theorem procLoop_append (fs : List Nat) (l1 : List FileRecord) :
    ∀ (l2 : List FileRecord) (i : Nat) (nif : Option String) (es : List (Nat × String))
      (i2 : Nat) (nif2 : Option String),
      procLoop fs l1 i nif = (es, .done i2 nif2) →
      procLoop fs (l1 ++ l2) i nif =
        (es ++ (procLoop fs l2 i2 nif2).1, (procLoop fs l2 i2 nif2).2) := by
  induction l1 with
  | nil =>
    intro l2 i nif es i2 nif2 h
    simp only [procLoop] at h
    obtain ⟨h1, h2⟩ := Prod.mk.injEq _ _ _ _ ▸ h
    cases h2
    subst h1
    simp
  | cons r rest ih =>
    intro l2 i nif es i2 nif2 h
    rw [List.cons_append]
    cases hb : fs.get? r.StringPtr with
    | none =>
      simp only [procLoop, hb] at h
      simp at h
    | some b =>
      cases nif with
      | none =>
        by_cases h0 : b = 0
        · simp only [procLoop, hb] at h
          simp [h0] at h
        · cases hgs : get_string fs r.StringPtr false with
          | error e =>
            simp only [procLoop, hb, hgs] at h
            simp [h0] at h
          | ok filename =>
            rcases hrec : procLoop fs rest (i + 1)
                (if r.Flags &&& MPFS2_FLAG_HASINDEX = MPFS2_FLAG_HASINDEX
                  then some filename else none)
              with ⟨es3, en3⟩
            simp only [procLoop, hb, hgs, hrec] at h
            simp [h0] at h
            obtain ⟨h1, h2⟩ := h
            subst h2
            subst h1
            have ihh := ih l2 (i + 1) _ es3 i2 nif2 hrec
            simp only [procLoop, hb, hgs, ihh]
            simp [h0]
      | some prev =>
        by_cases h0 : b = 0
        · rcases hrec : procLoop fs rest (i + 1)
              (if r.Flags &&& MPFS2_FLAG_HASINDEX = MPFS2_FLAG_HASINDEX
                then some (prev ++ "-index") else none)
            with ⟨es3, en3⟩
          simp only [procLoop, hb, hrec] at h
          simp [h0] at h
          obtain ⟨h1, h2⟩ := h
          subst h2
          subst h1
          have ihh := ih l2 (i + 1) _ es3 i2 nif2 hrec
          simp only [procLoop, hb, ihh]
          simp [h0]
        · simp only [procLoop, hb] at h
          simp [h0] at h

/-- C7: in the per-record pass, when the loop state expects an index
companion (the previous record had the has-index flag) and the current
record has a non-empty name, the pass reports the bad entry and breaks:
the records processed before it are kept (their filenames unchanged), the
offending record and all later records are not processed. -/
theorem c7_malformed_index_stop (fs : List Nat) (pre : List FileRecord) (r : FileRecord)
    (rest : List FileRecord) (i0 : Nat) (es : List (Nat × String)) (i : Nat) (prev : String)
    (b : Nat) (hpre : procLoop fs pre i0 none = (es, .done i (some prev)))
    (hb : fs.get? r.StringPtr = some b) (hnz : b ≠ 0) :
    procLoop fs (pre ++ r :: rest) i0 none = (es, .badIndex i) := by
  rw [procLoop_append fs pre (r :: rest) i0 none es i (some prev) hpre]
  have hstep : procLoop fs (r :: rest) i (some prev) = ([], .badIndex i) := by
    simp only [procLoop, hb]
    simp [hnz]
  rw [hstep]
  simp

/-- C7, witness: a two-record image where the first record has the
has-index flag and the second has a non-empty name. -/
theorem c7_malformed_index_stop_witness :
    procLoop [97, 0] ([⟨0, 0, 0, 0, 0, 2⟩] ++ [⟨0, 0, 0, 0, 0, 0⟩]) 0 none =
      ([(0, "a")], .badIndex 1) :=
  c7_malformed_index_stop [97, 0] [⟨0, 0, 0, 0, 0, 2⟩] ⟨0, 0, 0, 0, 0, 0⟩ [] 0
    [(0, "a")] 1 "a" 97 (by decide) rfl (by decide)

theorem readHashes_spec (fs : List Nat) :
    ∀ (k off : Nat) (hs : List Nat) (off2 : Nat),
      readHashes fs k off = .ok (hs, off2) →
      hs.length = k ∧ off2 = off + 2 * k ∧
      ∀ j, j < k → hs.get? j =
        (unpackU16 (sliceClamp fs (off + 2 * j) (off + 2 * j + 2))).toOption := by
  intro k
  induction k with
  | zero =>
    intro off hs off2 h
    simp only [readHashes] at h
    injection h with h1
    injection h1 with h2 h3
    subst h2
    subst h3
    exact ⟨rfl, by omega, fun j hj => absurd hj (by omega)⟩
  | succ k ih =>
    intro off hs off2 h
    simp only [readHashes] at h
    cases hu : unpackU16 (sliceClamp fs off (off + 2)) with
    | error e =>
      rw [hu] at h
      simp at h
    | ok v =>
      rw [hu] at h
      cases hr : readHashes fs k (off + 2) with
      | error e =>
        rw [hr] at h
        simp at h
      | ok p =>
        obtain ⟨hs2, off3⟩ := p
        rw [hr] at h
        simp only [Except.ok.injEq, Prod.mk.injEq] at h
        obtain ⟨h1, h2⟩ := h
        subst h1
        subst h2
        obtain ⟨hl, ho, hj⟩ := ih (off + 2) hs2 off3 hr
        refine ⟨by simp [hl], by omega, ?_⟩
        intro j hjk
        cases j with
        | zero =>
          have e0 : off + 2 * 0 = off := by omega
          simp [e0, hu, Except.toOption]
        | succ j =>
          have ej : off + 2 * (j + 1) = off + 2 + 2 * j := by omega
          have ej2 : off + 2 * (j + 1) + 2 = off + 2 + 2 * j + 2 := by omega
          simp only [List.get?_cons_succ, ej, ej2]
          exact hj j (by omega)

theorem readRecords_spec (fs : List Nat) :
    ∀ (k off : Nat) (rs : List FileRecord) (off2 : Nat),
      readRecords fs k off = .ok (rs, off2) →
      rs.length = k ∧ off2 = off + 22 * k ∧
      ∀ j, j < k → rs.get? j =
        (unpackRecord (sliceClamp fs (off + 22 * j) (off + 22 * j + 22))).toOption := by
  intro k
  induction k with
  | zero =>
    intro off rs off2 h
    simp only [readRecords] at h
    injection h with h1
    injection h1 with h2 h3
    subst h2
    subst h3
    exact ⟨rfl, by omega, fun j hj => absurd hj (by omega)⟩
  | succ k ih =>
    intro off rs off2 h
    simp only [readRecords] at h
    cases hu : unpackRecord (sliceClamp fs off (off + 22)) with
    | error e =>
      rw [hu] at h
      simp at h
    | ok v =>
      rw [hu] at h
      cases hr : readRecords fs k (off + 22) with
      | error e =>
        rw [hr] at h
        simp at h
      | ok p =>
        obtain ⟨rs2, off3⟩ := p
        rw [hr] at h
        simp only [Except.ok.injEq, Prod.mk.injEq] at h
        obtain ⟨h1, h2⟩ := h
        subst h1
        subst h2
        obtain ⟨hl, ho, hj⟩ := ih (off + 22) rs2 off3 hr
        refine ⟨by simp [hl], by omega, ?_⟩
        intro j hjk
        cases j with
        | zero =>
          have e0 : off + 22 * 0 = off := by omega
          simp [e0, hu, Except.toOption]
        | succ j =>
          have ej : off + 22 * (j + 1) = off + 22 + 22 * j := by omega
          have ej2 : off + 22 * (j + 1) + 22 = off + 22 + 22 * j + 22 := by omega
          simp only [List.get?_cons_succ, ej, ej2]
          exact hj j (by omega)

/-- C9: on a successful decode the file count n is the little-endian u16
read at offset 6, there are exactly n hashes and n records, the offset
consumed by the table region is exactly 8 + 2n + 22n, hash j is the
little-endian u16 at bytes [8+2j, 8+2j+2), and record j is decoded by the
"<IIIIIH" unpacker (little-endian StringPtr, DataPtr, Len, Timestamp,
Microtime, Flags, in that order) from the 22 bytes starting at
8 + 2n + 22j. -/
theorem c9_table_shape (fs : List Nat) (d : Decoded) (h : decode fs = .ok d) :
    unpackU16 (sliceClamp fs 6 8) = .ok d.n ∧
    d.record.length = d.n ∧ d.name_hash.length = d.n ∧
    d.offset = 8 + 2 * d.n + 22 * d.n ∧
    (∀ j, j < d.n → d.name_hash.get? j =
      (unpackU16 (sliceClamp fs (8 + 2 * j) (8 + 2 * j + 2))).toOption) ∧
    (∀ j, j < d.n → d.record.get? j =
      (unpackRecord (sliceClamp fs (8 + 2 * d.n + 22 * j)
        (8 + 2 * d.n + 22 * j + 22))).toOption) := by
  unfold decode at h
  split at h
  · simp at h
  split at h
  · simp at h
  rename_i vh h4
  split at h
  · simp at h
  rename_i vl h5
  split at h
  · simp at h
  rename_i n hn
  split at h
  · simp at h
  rename_i hs off1 hh
  split at h
  · simp at h
  rename_i rs off2 hr
  injection h with h1
  subst h1
  obtain ⟨hl1, ho1, hj1⟩ := readHashes_spec fs n 8 hs off1 hh
  obtain ⟨hl2, ho2, hj2⟩ := readRecords_spec fs n off1 rs off2 hr
  refine ⟨hn, hl2, hl1, ?_, ?_, ?_⟩
  · show off2 = 8 + 2 * n + 22 * n
    omega
  · intro j hj
    exact hj1 j hj
  · intro j hj
    have e1 : off1 + 22 * j = 8 + 2 * n + 22 * j := by omega
    have e2 : off1 + 22 * j + 22 = 8 + 2 * n + 22 * j + 22 := by omega
    have hj2j := hj2 j hj
    rw [e2, e1] at hj2j
    exact hj2j

/-- C9, witness on a concrete valid one-file image of 32 bytes. -/
theorem c9_table_shape_witness :
    ([(⟨1, 2, 3, 4, 5, 6⟩ : FileRecord)]).length = 1 :=
  (c9_table_shape
    [77, 80, 70, 83, 2, 1, 1, 0, 7, 0, 1, 0, 0, 0, 2, 0, 0, 0, 3, 0, 0, 0,
      4, 0, 0, 0, 5, 0, 0, 0, 6, 0]
    ⟨2, 1, 1, [7], [⟨1, 2, 3, 4, 5, 6⟩], 32⟩ (by decide)).2.1
